import Mathlib

/-!
Verification of the NiceDay PDF API backend (`app.py`) against its
natural-language specification.

The development shallowly embeds the index-reconciliation and
edit-composition logic of the backend:

* `_parse_deletions`  — the deletion-set normalizer (app.py, lines 42–55);
* `_page_idx_from_filename` — overlay tag extraction (app.py, lines 57–63);
* the `export_pdf` composition pipeline (app.py, lines 141–175):
  overlay application followed by page deletion;
* the `render_page` clamping behaviour (app.py, lines 106–125);
* the resource (document-handle) discipline of the `thumbs`, `render_page`
  and `export_pdf` routes, modelled as explicit control-flow functions over
  the outcomes of the fallible engine operations.

Python integers are modelled as `Int`; Python lists as `List`; a parsed
JSON document as `Option (List JVal)` where `none` models a
`json.loads` failure; exceptions as `Option`/`Except` or explicit
outcome flags.
-/

/-- A JSON array element, as produced by `json.loads` for the deletions
field.  `jint` is a JSON integer, `jstr` a JSON string, and `jother`
any other JSON value (null, array, object, …) on which Python's
`int(x)` raises. -/
inductive JVal where
  | jint (n : Int)
  | jstr (s : List Char)
  | jother
deriving DecidableEq, Repr

/-- Value of a single decimal digit character. -/
def digitVal (c : Char) : Nat := c.toNat - '0'.toNat

/-- Numeric value of a (nonempty) run of decimal digits, most significant
first, as computed by Python `int` on a digit string, e.g. `int("012") = 12`. -/
def digitsToNat (run : List Char) : Nat :=
  run.foldl (fun a c => a * 10 + digitVal c) 0

/-- Python `int(s)` on a string: an optional sign followed by a nonempty
run of decimal digits parses to the signed value; anything else raises
(modelled as `none`). -/
def parseIntStr : List Char → Option Int
  | [] => none
  | '-' :: rest =>
      if rest ≠ [] ∧ rest.all Char.isDigit then some (-(digitsToNat rest : Int)) else none
  | '+' :: rest =>
      if rest ≠ [] ∧ rest.all Char.isDigit then some (digitsToNat rest : Int) else none
  | l =>
      if l.all Char.isDigit then some (digitsToNat l : Int) else none

/-- Python `int(x)` on a JSON array element: an integer is returned as is,
a string is parsed with `parseIntStr`, anything else raises (`none`). -/
def pyInt : JVal → Option Int
  | .jint n => some n
  | .jstr s => parseIntStr s
  | .jother => none

/-- `_parse_deletions(raw, page_count)` from app.py (lines 42–55).

`raw` is the result of `json.loads` on the deletions form field:
`none` when `json.loads` raises (the outer `except` returns `[]`),
`some arr` when it yields a list.  Each element is converted with
`int(x)`; a conversion failure drops the element (`continue`), an
in-range value `0 <= i < page_count` is kept.  The result is
`list(sorted(set(keep)))`: deduplicated and sorted ascending. -/
def _parse_deletions (raw : Option (List JVal)) (page_count : Nat) : List Int :=
  match raw with
  | none => []
  | some arr =>
      let keep := arr.filterMap (fun x =>
        match pyInt x with
        | none => none
        | some i => if 0 ≤ i ∧ i < (page_count : Int) then some i else none)
      List.insertionSort (· ≤ ·) keep.dedup

/-- Scanner for `digitRuns`: walks the characters once, accumulating the
current (reversed) digit run in `cur` and emitting it whenever a
non-digit or the end of the input is reached. -/
def digitRunsAux : List Char → List Char → List (List Char)
  | [], cur => if cur = [] then [] else [cur.reverse]
  | c :: cs, cur =>
      if c.isDigit then digitRunsAux cs (c :: cur)
      else if cur = [] then digitRunsAux cs []
      else cur.reverse :: digitRunsAux cs []

/-- The maximal runs of decimal digits in a character list, in order:
the matches of the regex `(\d+)` in `re.findall`.
E.g. `"overlay-12.png"` yields the single run `['1','2']`. -/
def digitRuns (l : List Char) : List (List Char) :=
  digitRunsAux l []

/-- `_page_idx_from_filename(name)` from app.py (lines 57–63):
`re.findall(r"(\d+)", name)`, then `int` of the last match, or `None`
when there is no match. -/
def _page_idx_from_filename (name : List Char) : Option Int :=
  match (digitRuns name).getLast? with
  | none => none
  | some run => some (digitsToNat run : Int)

/-- A page of the in-memory document: its original position in the
uploaded PDF, and the identifiers of the overlay images composited onto
it (painted above existing content), in application order. -/
structure Page where
  origIdx : Nat
  overlays : List Nat
deriving DecidableEq, Repr

/-- An uploaded overlay file: its filename (the page tag is embedded in
it) and an identifier standing for the PNG bytes. -/
structure OverlayFile where
  filename : List Char
  img : Nat
deriving DecidableEq, Repr

/-- One iteration of the overlay loop of `export_pdf` (app.py, lines
146–157), run before any deletion: extract the page tag from the
filename; skip the file when no tag is found, when the tag is in
`delete_idx`, or when it is outside `[0, len(doc))`; otherwise composite
the image onto the page at that index (above existing content). -/
def overlayStep (delete_idx : List Int) (d : List Page) (ov : OverlayFile) : List Page :=
  match _page_idx_from_filename ov.filename with
  | none => d
  | some page_idx =>
      if page_idx ∈ delete_idx ∨ ¬ (0 ≤ page_idx ∧ page_idx < (d.length : Int)) then d
      else List.modify (fun p => { p with overlays := p.overlays ++ [ov.img] })
             page_idx.toNat d

/-- The full overlay loop: `overlayStep` folded over the uploaded files
in order. -/
def applyOverlays (doc : List Page) (delete_idx : List Int)
    (overlays : List OverlayFile) : List Page :=
  overlays.foldl (overlayStep delete_idx) doc

/-- One iteration of the deletion loop of `export_pdf` (app.py, lines
159–162): delete the page at `idx` when it is still in range
`[0, len(doc))`, otherwise do nothing. -/
def deletionStep (d : List Page) (idx : Int) : List Page :=
  if 0 ≤ idx ∧ idx < (d.length : Int) then d.eraseIdx idx.toNat else d

/-- The deletion loop of `export_pdf` (app.py, lines 159–162): iterate
`sorted(delete_idx, reverse=True)` — the indices in descending order —
and apply `deletionStep` to each. -/
def applyDeletions (doc : List Page) (delete_idx : List Int) : List Page :=
  (List.insertionSort (· ≥ ·) delete_idx).foldl deletionStep doc

/-- The edit-composition core of `export_pdf` (app.py, lines 141–166):
parse the deletions against the current page count, apply overlays
first (original-epoch indices, deleted targets skipped), then apply the
deletions high-to-low. -/
def exportCompose (doc : List Page) (overlays : List OverlayFile)
    (deletions : Option (List JVal)) : List Page :=
  let delete_idx := _parse_deletions deletions doc.length
  applyDeletions (applyOverlays doc delete_idx overlays) delete_idx

/-- The page-selection step of `render_page` (app.py, lines 106–125):
the requested index is clamped with `max(0, min(page, len(doc) - 1))`
and the page at the clamped index is rendered; indexing a page out of
range (only possible for an empty document) raises, which the handler
turns into an error response. -/
def render_page (doc : List Page) (page : Int) : Except (List Char) Int :=
  let p := max 0 (min page ((doc.length : Int) - 1))
  if 0 ≤ p ∧ p < (doc.length : Int) then .ok p
  else .error "page_render_failed".data

/-- Outcomes of the fallible external operations a request performs, one
flag per operation: `true` means the call returns normally, `false`
means it raises. -/
structure EngineOutcomes where
  readOk : Bool
  openOk : Bool
  bodyOk : Bool
  saveOk : Bool
deriving DecidableEq, Repr

/-- Observable effects of one request run: whether a document handle was
opened, whether it was closed by the end of the request, and whether the
response was a success. -/
structure RunTrace where
  opened : Bool
  closed : Bool
  succeeded : Bool
deriving DecidableEq, Repr

/-- Control-flow model of `export_pdf` (app.py, lines 139–177):
`try:` read the upload, open the document, `try:` apply the edits and
save, `finally:` close the document, `except:` return an error
response.  `bodyOk` covers the overlay reads/insertions and the page
deletions, `saveOk` the serialization; a failure anywhere inside the
inner `try` still runs the `finally` close. -/
def runExport (o : EngineOutcomes) : RunTrace :=
  if o.readOk = false then ⟨false, false, false⟩
  else if o.openOk = false then ⟨false, false, false⟩
  else if o.bodyOk = false then ⟨true, true, false⟩
  else if o.saveOk = false then ⟨true, true, false⟩
  else ⟨true, true, true⟩

/-- Control-flow model of `thumbs` (app.py, lines 84–103): same scoped
acquisition; `bodyOk` covers the per-page pixmap rendering loop, and the
route has no separate save step. -/
def runThumbs (readOk openOk bodyOk : Bool) : RunTrace :=
  if readOk = false then ⟨false, false, false⟩
  else if openOk = false then ⟨false, false, false⟩
  else if bodyOk = false then ⟨true, true, false⟩
  else ⟨true, true, true⟩

/-- The per-entry filter of `_parse_deletions`: an entry contributes `i`
exactly when `int(x)` succeeds with `i` and `i` is in range. -/
theorem parse_deletions_filter_eq_some {x : JVal} {page_count : Nat} {i : Int} :
    (match pyInt x with
      | none => none
      | some j => if 0 ≤ j ∧ j < (page_count : Int) then some j else none) = some i ↔
      pyInt x = some i ∧ 0 ≤ i ∧ i < (page_count : Int) := by
  cases h : pyInt x with
  | none => simp
  | some j =>
      change (if 0 ≤ j ∧ j < (page_count : Int) then some j else none) = some i ↔
        some j = some i ∧ 0 ≤ i ∧ i < (page_count : Int)
      by_cases hj : 0 ≤ j ∧ j < (page_count : Int)
      · rw [if_pos hj]
        simp only [Option.some.injEq]
        constructor
        · rintro rfl; exact ⟨rfl, hj⟩
        · rintro ⟨rfl, _⟩; rfl
      · rw [if_neg hj]
        constructor
        · rintro ⟨⟩
        · rintro ⟨h1, hb⟩
          cases h1
          exact absurd hb hj

/-- Membership in a normalized deletion set: exactly the in-range values
of entries that parse as integers. -/
theorem parse_deletions_mem {arr : List JVal} {page_count : Nat} {i : Int} :
    i ∈ _parse_deletions (some arr) page_count ↔
      (∃ x ∈ arr, pyInt x = some i) ∧ 0 ≤ i ∧ i < (page_count : Int) := by
  unfold _parse_deletions
  rw [(List.perm_insertionSort _ _).mem_iff, List.mem_dedup, List.mem_filterMap]
  constructor
  · rintro ⟨x, hx, hfx⟩
    rcases parse_deletions_filter_eq_some.mp hfx with ⟨hp, hb⟩
    exact ⟨⟨x, hx, hp⟩, hb⟩
  · rintro ⟨⟨x, hx, hp⟩, hb⟩
    exact ⟨x, hx, parse_deletions_filter_eq_some.mpr ⟨hp, hb⟩⟩

/-- The normalized deletion list has no duplicate entries. -/
theorem parse_deletions_nodup (raw : Option (List JVal)) (page_count : Nat) :
    (_parse_deletions raw page_count).Nodup := by
  cases raw with
  | none => simp [_parse_deletions]
  | some arr =>
      unfold _parse_deletions
      exact (List.perm_insertionSort _ _).symm.nodup (List.nodup_dedup _)

/-- The normalized deletion list is sorted in nondecreasing order. -/
theorem parse_deletions_sorted_le (raw : Option (List JVal)) (page_count : Nat) :
    List.Sorted (· ≤ ·) (_parse_deletions raw page_count) := by
  cases raw with
  | none => simp [_parse_deletions]
  | some arr => exact List.sorted_insertionSort _ _

/-- C2. For every raw deletion input, normalization parses each entry as
an integer, silently drops entries that fail to parse or lie outside
`[0, page_count)`, and deduplicates; in particular
`normalize(["2", "x", "-1", "2"], page_count=5)` yields exactly `{2}`. -/
theorem parse_deletions_drops_and_dedups :
    (∀ (arr : List JVal) (page_count : Nat) (i : Int),
      i ∈ _parse_deletions (some arr) page_count ↔
        (∃ x ∈ arr, pyInt x = some i) ∧ 0 ≤ i ∧ i < (page_count : Int)) ∧
    (∀ (arr : List JVal) (page_count : Nat),
      (_parse_deletions (some arr) page_count).Nodup) ∧
    _parse_deletions
      (some [.jstr ['2'], .jstr ['x'], .jstr ['-', '1'], .jstr ['2']]) 5 = [2] := by
  refine ⟨?_, ?_, by decide⟩
  · intro arr page_count i
    exact parse_deletions_mem
  · intro arr page_count
    exact parse_deletions_nodup (some arr) page_count

theorem parse_deletions_drops_and_dedups_witness :
    (2 : Int) ∈ _parse_deletions (some [JVal.jint 2, JVal.jother]) 5 :=
  (parse_deletions_drops_and_dedups.1 [JVal.jint 2, JVal.jother] 5 2).mpr
    ⟨⟨JVal.jint 2, by decide, rfl⟩, by decide⟩

/-- C3. Deletion-set normalization never fails: it is a total function
(by construction), a `json.loads` failure yields the empty deletion set,
and so does an input none of whose entries parses as an integer. -/
theorem parse_deletions_never_fails :
    (∀ page_count : Nat, _parse_deletions none page_count = []) ∧
    (∀ (arr : List JVal) (page_count : Nat),
      (∀ x ∈ arr, pyInt x = none) → _parse_deletions (some arr) page_count = []) := by
  constructor
  · intro page_count
    rfl
  · intro arr page_count h
    have hnil : arr.filterMap (fun x =>
        match pyInt x with
        | none => none
        | some i => if 0 ≤ i ∧ i < (page_count : Int) then some i else none) = [] := by
      rw [List.filterMap_eq_nil_iff]
      intro a ha
      rw [h a ha]
    simp only [_parse_deletions]
    rw [hnil]
    rfl

theorem parse_deletions_never_fails_witness :
    _parse_deletions none 3 = [] ∧
      _parse_deletions (some [JVal.jother, JVal.jstr ['x']]) 3 = [] :=
  ⟨parse_deletions_never_fails.1 3,
    parse_deletions_never_fails.2 [JVal.jother, JVal.jstr ['x']] 3 (by decide)⟩

/-- C9. For every input and page count, the normalized deletion list is
strictly increasing and every element lies in `[0, page_count)`. -/
theorem parse_deletions_strictly_increasing_in_range
    (raw : Option (List JVal)) (page_count : Nat) :
    List.Sorted (· < ·) (_parse_deletions raw page_count) ∧
      ∀ i ∈ _parse_deletions raw page_count, 0 ≤ i ∧ i < (page_count : Int) := by
  refine ⟨(parse_deletions_sorted_le raw page_count).lt_of_le
    (parse_deletions_nodup raw page_count), ?_⟩
  intro i hi
  cases raw with
  | none => cases hi
  | some arr => exact (parse_deletions_mem.mp hi).2

theorem parse_deletions_strictly_increasing_in_range_witness :
    List.Sorted (· < ·) (_parse_deletions (some [JVal.jint 3, JVal.jint 1]) 5) ∧
      (0 : Int) ≤ 1 ∧ (1 : Int) < ((5 : Nat) : Int) :=
  ⟨(parse_deletions_strictly_increasing_in_range (some [JVal.jint 3, JVal.jint 1]) 5).1,
    (parse_deletions_strictly_increasing_in_range (some [JVal.jint 3, JVal.jint 1]) 5).2
      1 (by decide)⟩

/-- A `filterMap` whose function returns each member unchanged is the
identity. -/
theorem filterMap_eq_self_of_mem {α : Type} {f : α → Option α} :
    ∀ l : List α, (∀ x ∈ l, f x = some x) → l.filterMap f = l := by
  intro l h
  induction l with
  | nil => rfl
  | cons a t ih =>
      have ha := h a (List.mem_cons_self a t)
      simp [List.filterMap_cons, ha, ih fun x hx => h x (List.mem_cons_of_mem a hx)]

/-- Every element of a normalized deletion list is in `[0, page_count)`. -/
theorem parse_deletions_bounds (raw : Option (List JVal)) (page_count : Nat) :
    ∀ i ∈ _parse_deletions raw page_count, 0 ≤ i ∧ i < (page_count : Int) := by
  intro i hi
  cases raw with
  | none => cases hi
  | some arr => exact (parse_deletions_mem.mp hi).2

/-- Normalizing a canonical deletion list — deduplicated, sorted
ascending, all entries in range, serialized back to JSON integers —
returns it unchanged. -/
theorem parse_deletions_of_canonical {l : List Int} {page_count : Nat}
    (hnd : l.Nodup) (hs : List.Sorted (· ≤ ·) l)
    (hb : ∀ i ∈ l, 0 ≤ i ∧ i < (page_count : Int)) :
    _parse_deletions (some (l.map JVal.jint)) page_count = l := by
  simp only [_parse_deletions]
  rw [List.filterMap_map]
  have hkeep := filterMap_eq_self_of_mem (f := (fun x =>
      match pyInt x with
      | none => none
      | some i => if 0 ≤ i ∧ i < (page_count : Int) then some i else none) ∘ JVal.jint)
    l (fun i hi => by
      rcases hb i hi with ⟨h1, h2⟩
      simp [Function.comp, pyInt, h1, h2])
  rw [hkeep, hnd.dedup, hs.insertionSort_eq]

/-- C6. Deletion-set normalization is idempotent: normalizing the
serialized output of a previous normalization, under the same page
count, yields the same deletion list. -/
theorem parse_deletions_idempotent (raw : Option (List JVal)) (page_count : Nat) :
    _parse_deletions (some ((_parse_deletions raw page_count).map JVal.jint)) page_count =
      _parse_deletions raw page_count :=
  parse_deletions_of_canonical
    (parse_deletions_nodup raw page_count)
    (parse_deletions_sorted_le raw page_count)
    (parse_deletions_bounds raw page_count)

/-- C4. During composition, page deletions are applied strictly in
descending original-index order, and the descending order is established
by the compositor itself: the iteration order is strictly descending for
any (duplicate-free) deletion set, and the result of `applyDeletions`
does not depend on the order in which the caller supplies the indices. -/
theorem deletions_applied_descending :
    (∀ l : List Int, l.Nodup →
      List.Sorted (· > ·) (List.insertionSort (· ≥ ·) l)) ∧
    (∀ (doc : List Page) (l l' : List Int), l.Perm l' →
      applyDeletions doc l = applyDeletions doc l') := by
  constructor
  · intro l hnd
    have hs : List.Sorted (· ≥ ·) (List.insertionSort (· ≥ ·) l) :=
      List.sorted_insertionSort _ _
    have hnd' : (List.insertionSort (· ≥ ·) l).Nodup :=
      (List.perm_insertionSort _ _).symm.nodup hnd
    exact (hs.and hnd').imp fun h => h.1.lt_of_ne (Ne.symm h.2)
  · intro doc l l' hperm
    unfold applyDeletions
    have hsorteq : List.insertionSort (· ≥ ·) l = List.insertionSort (· ≥ ·) l' :=
      List.eq_of_perm_of_sorted
        ((List.perm_insertionSort _ _).trans
          (hperm.trans (List.perm_insertionSort (· ≥ ·) l').symm))
        (List.sorted_insertionSort _ _) (List.sorted_insertionSort _ _)
    rw [hsorteq]

theorem deletions_applied_descending_witness :
    List.Sorted (· > ·) (List.insertionSort (· ≥ ·) ([1, 3] : List Int)) ∧
      applyDeletions [⟨0, []⟩, ⟨1, []⟩, ⟨2, []⟩] [0, 1] =
        applyDeletions [⟨0, []⟩, ⟨1, []⟩, ⟨2, []⟩] [1, 0] :=
  ⟨deletions_applied_descending.1 [1, 3] (by decide),
    deletions_applied_descending.2 [⟨0, []⟩, ⟨1, []⟩, ⟨2, []⟩] [0, 1] [1, 0] (by decide)⟩

/-- `overlayStep` never changes the number of pages. -/
theorem length_overlayStep (delete_idx : List Int) (d : List Page) (ov : OverlayFile) :
    (overlayStep delete_idx d ov).length = d.length := by
  unfold overlayStep
  cases _page_idx_from_filename ov.filename with
  | none => rfl
  | some page_idx =>
      dsimp only
      by_cases hc : page_idx ∈ delete_idx ∨ ¬ (0 ≤ page_idx ∧ page_idx < (d.length : Int))
      · rw [if_pos hc]
      · rw [if_neg hc]
        exact List.length_modify _ _ _

/-- `applyOverlays` never changes the number of pages. -/
theorem length_applyOverlays (delete_idx : List Int) (overlays : List OverlayFile) :
    ∀ doc : List Page, (applyOverlays doc delete_idx overlays).length = doc.length := by
  induction overlays with
  | nil => intro doc; rfl
  | cons ov rest ih =>
      intro doc
      show (applyOverlays (overlayStep delete_idx doc ov) delete_idx rest).length = _
      rw [ih, length_overlayStep]

/-- The overlay loop splits over the file list. -/
theorem applyOverlays_append (doc : List Page) (delete_idx : List Int)
    (l1 l2 : List OverlayFile) :
    applyOverlays doc delete_idx (l1 ++ l2) =
      applyOverlays (applyOverlays doc delete_idx l1) delete_idx l2 :=
  List.foldl_append _ _ _ _

/-- An overlay whose tag is missing, targets a deleted page, or is out
of range leaves the document unchanged. -/
theorem overlayStep_drop {delete_idx : List Int} {d : List Page} {ov : OverlayFile}
    (h : _page_idx_from_filename ov.filename = none ∨
      ∃ i, _page_idx_from_filename ov.filename = some i ∧
        (i ∈ delete_idx ∨ ¬ (0 ≤ i ∧ i < (d.length : Int)))) :
    overlayStep delete_idx d ov = d := by
  unfold overlayStep
  rcases h with h | ⟨i, hi, hcond⟩
  · rw [h]
  · rw [hi]
    dsimp only
    rw [if_pos hcond]

/-- C5. In original-epoch addressing, an overlay whose tagged page is in
the deletion set (or whose tag is out of range) is dropped from the
batch without raising any error, and the remaining overlays are applied
exactly as if it had not been present; in particular an overlay tagged
`"2"` with deletion set `{2}` resolves to no edit. -/
theorem overlay_for_deleted_page_dropped :
    (∀ (doc : List Page) (delete_idx : List Int) (ovs1 ovs2 : List OverlayFile)
      (ov : OverlayFile) (i : Int),
      _page_idx_from_filename ov.filename = some i →
      (i ∈ delete_idx ∨ ¬ (0 ≤ i ∧ i < (doc.length : Int))) →
      applyOverlays doc delete_idx (ovs1 ++ ov :: ovs2) =
        applyOverlays doc delete_idx (ovs1 ++ ovs2)) ∧
    applyOverlays [⟨0, []⟩, ⟨1, []⟩, ⟨2, []⟩] [2] [⟨"overlay_2.png".data, 7⟩] =
      [⟨0, []⟩, ⟨1, []⟩, ⟨2, []⟩] := by
  constructor
  · intro doc delete_idx ovs1 ovs2 ov i hi hcond
    rw [applyOverlays_append, applyOverlays_append]
    have hlen : (applyOverlays doc delete_idx ovs1).length = doc.length :=
      length_applyOverlays _ _ _
    show applyOverlays (overlayStep delete_idx (applyOverlays doc delete_idx ovs1) ov)
        delete_idx ovs2 = _
    rw [overlayStep_drop (Or.inr ⟨i, hi, by rw [hlen]; exact hcond⟩)]
  · decide

theorem overlay_for_deleted_page_dropped_witness :
    applyOverlays [Page.mk 0 []] [0] ([] ++ OverlayFile.mk "0.png".data 7 :: []) =
      applyOverlays [Page.mk 0 []] [0] ([] ++ []) :=
  overlay_for_deleted_page_dropped.1 [Page.mk 0 []] [0] [] []
    (OverlayFile.mk "0.png".data 7) 0 (by decide) (Or.inl (by decide))

/-- C1 (counterexample). On a 3-page document with page 1 deleted and an
overlay tagged `1`, the exported document is pages 0 and 2 of the
original, with no overlay composited anywhere: the overlay does not land
on the page that was original index 2.  The code applies overlays before
deletions, addressed by original-epoch index, and drops an overlay whose
tag is in the deletion set. -/
theorem export_overlay_final_epoch_counterexample :
    exportCompose [⟨0, []⟩, ⟨1, []⟩, ⟨2, []⟩] [⟨"1.png".data, 7⟩] (some [.jint 1]) =
        [⟨0, []⟩, ⟨2, []⟩] ∧
      (exportCompose [⟨0, []⟩, ⟨1, []⟩, ⟨2, []⟩] [⟨"1.png".data, 7⟩]
          (some [.jint 1])).map Page.overlays = [[], []] := by
  constructor
  · decide
  · decide

/-- C1 (amended). In the edit-composition operation (export), overlay
edits are applied before page deletions and are addressed by
original-epoch page index, with an overlay whose tag is in the deletion
set dropped: on a 3-page document with page 1 deleted, an overlay tagged
`1` is not applied to any page, and the output is original pages 0 and 2
unchanged. -/
theorem export_overlay_original_epoch_before_deletion
    (p0 p1 p2 : Page) (ov : OverlayFile)
    (h : _page_idx_from_filename ov.filename = some 1) :
    exportCompose [p0, p1, p2] [ov] (some [.jint 1]) = [p0, p2] := by
  have hd : _parse_deletions (some [JVal.jint 1]) 3 = [1] := by decide
  show applyDeletions
    (applyOverlays [p0, p1, p2] (_parse_deletions (some [JVal.jint 1]) 3) [ov])
    (_parse_deletions (some [JVal.jint 1]) 3) = [p0, p2]
  rw [hd]
  have hov : applyOverlays [p0, p1, p2] [1] [ov] = [p0, p1, p2] := by
    show overlayStep [1] [p0, p1, p2] ov = [p0, p1, p2]
    exact overlayStep_drop (Or.inr ⟨1, h, Or.inl (by decide)⟩)
  rw [hov]
  show deletionStep [p0, p1, p2] 1 = [p0, p2]
  unfold deletionStep
  rw [if_pos (by simp)]
  rfl

theorem export_overlay_original_epoch_before_deletion_witness :
    exportCompose [Page.mk 0 [], Page.mk 1 [], Page.mk 2 []]
        [OverlayFile.mk "1.png".data 7] (some [.jint 1]) =
      [Page.mk 0 [], Page.mk 2 []] :=
  export_overlay_original_epoch_before_deletion
    (Page.mk 0 []) (Page.mk 1 []) (Page.mk 2 [])
    (OverlayFile.mk "1.png".data 7) (by decide)

/-- C7. For a reference tag containing exactly one embedded run of
digits, tag extraction returns exactly that embedded non-negative
integer, whatever other structure (prefixes, extensions) surrounds it;
a tag containing no digits yields no target. -/
theorem page_idx_extraction_single_integer :
    (∀ name run : List Char, digitRuns name = [run] →
      _page_idx_from_filename name = some (digitsToNat run : Int)) ∧
    (∀ name : List Char, digitRuns name = [] →
      _page_idx_from_filename name = none) := by
  constructor
  · intro name run h
    unfold _page_idx_from_filename
    rw [h]
    rfl
  · intro name h
    unfold _page_idx_from_filename
    rw [h]
    rfl

theorem page_idx_extraction_single_integer_witness :
    _page_idx_from_filename "overlay_12.png".data = some (digitsToNat ['1', '2'] : Int) ∧
      _page_idx_from_filename "no-digits".data = none :=
  ⟨page_idx_extraction_single_integer.1 "overlay_12.png".data ['1', '2'] (by decide),
    page_idx_extraction_single_integer.2 "no-digits".data (by decide)⟩

/-- C8. On every exit path of a request that opens a document handle —
including paths where composition or serialization raises — the handle
is closed before the request terminates, and no path closes a handle
that was never opened: for both `export_pdf` and `thumbs`, the handle is
closed exactly when it was opened. -/
theorem document_handle_closed_on_all_paths :
    (∀ o : EngineOutcomes, (runExport o).closed = (runExport o).opened) ∧
    (∀ readOk openOk bodyOk : Bool,
      (runThumbs readOk openOk bodyOk).closed = (runThumbs readOk openOk bodyOk).opened) := by
  constructor
  · rintro ⟨r, op, b, s⟩
    cases r <;> cases op <;> cases b <;> cases s <;> rfl
  · intro r op b
    cases r <;> cases op <;> cases b <;> rfl

/-- C10. For a non-empty document, the single-page render never rejects
an out-of-range page index: the requested integer is clamped into
`[0, page_count - 1]` and the page at the clamped (valid) index is
rendered rather than an error returned. -/
theorem render_page_clamps_never_errors (doc : List Page) (page : Int)
    (h : 1 ≤ doc.length) :
    render_page doc page = .ok (max 0 (min page ((doc.length : Int) - 1))) ∧
      0 ≤ max 0 (min page ((doc.length : Int) - 1)) ∧
      max 0 (min page ((doc.length : Int) - 1)) ≤ (doc.length : Int) - 1 := by
  have hn : (1 : Int) ≤ (doc.length : Int) := by exact_mod_cast h
  have h0 : (0 : Int) ≤ (doc.length : Int) - 1 := by omega
  have hle : max 0 (min page ((doc.length : Int) - 1)) ≤ (doc.length : Int) - 1 :=
    max_le h0 (min_le_right _ _)
  refine ⟨?_, le_max_left _ _, hle⟩
  unfold render_page
  rw [if_pos ⟨le_max_left _ _, by omega⟩]

theorem render_page_clamps_never_errors_witness :
    render_page [Page.mk 0 []] 5 =
      .ok (max 0 (min 5 ((([Page.mk 0 []].length : Nat) : Int) - 1))) :=
  (render_page_clamps_never_errors [Page.mk 0 []] 5 (by decide)).1
